import Mathlib

/-!
Verification of the table engine of `obsidian-db-folder`
(src/src/components/Table.tsx), shallowly embedded in Lean.

The embedding models:
* the JavaScript array primitives (`indexOf`, `splice`) used by
  `reorderColumn` (Table.tsx lines 108-119);
* the column-order reconciliation that runs on every render pass
  (Table.tsx lines 120-123);
* the debounced column-sizing commit (`onColumnSizingChange`,
  Table.tsx lines 204-236, and the single `persistSizingTimeout`
  state cell at line 102);
* the pagination row model as configured (`autoResetPageIndex: false`,
  Table.tsx line 254);
* the add-new-row controller (`handleAddNewRow` / `handleKeyDown`,
  Table.tsx lines 260-270);
* the global-filter pass and the width-clamping registry action, whose
  implementations live outside the provided sources and are therefore
  modelled from the specification (their doc comments say so).
-/

/-- JavaScript `Array.prototype.indexOf`: index of the first occurrence
of `a` in `l`, or `-1` when `a` does not occur. -/
def jsIndexOf (l : List String) (a : String) : Int :=
  if a ∈ l then (l.indexOf a : Int) else -1

/-- JavaScript `splice` start-index normalization: a negative start counts
from the end of the array (clamped at 0), a non-negative start is clamped
to the array length. -/
def jsNormIdx (len : Nat) (i : Int) : Nat :=
  if i < 0 then ((len : Int) + i).toNat else min i.toNat len

/-- JavaScript `l.splice(start, 1)`: removes (at most) one element at the
normalized start index.  Returns the remaining array together with the
array of removed elements (`[]` or a singleton), exactly as `splice`
returns the removed slice. -/
def spliceRemove1 (l : List String) (start : Int) : List String × List String :=
  let s := jsNormIdx l.length start
  (l.take s ++ l.drop (s + 1), (l.drop s).take 1)

/-- JavaScript `l.splice(start, 0, x)`: inserts `x` at the normalized
start index, removing nothing. -/
def spliceInsert (l : List String) (start : Int) (x : String) : List String :=
  let s := jsNormIdx l.length start
  l.take s ++ x :: l.drop s

/-- The contents of the caller's `columnOrder` array after `reorderColumn`
(Table.tsx lines 108-119) has run.  The source executes

```
columnOrder.splice(
  columnOrder.indexOf(targetColumnId),
  0,
  columnOrder.splice(columnOrder.indexOf(draggedColumnId), 1)[0] as string
);
```

JavaScript evaluates the outer call's arguments left to right, so
`columnOrder.indexOf(targetColumnId)` is computed on the *original*
array, before the inner `splice` removes the dragged element.  The
(unreachable for the preconditions used below) case in which the inner
`splice` removes nothing — possible only for an empty array — is modelled
by skipping the insertion. -/
def reorderColumnMutation (draggedColumnId targetColumnId : String)
    (columnOrder : List String) : List String :=
  let tIdx := jsIndexOf columnOrder targetColumnId
  let r := spliceRemove1 columnOrder (jsIndexOf columnOrder draggedColumnId)
  match r.2 with
  | [x] => spliceInsert r.1 tIdx x
  | _ => r.1

/-- `reorderColumn` (Table.tsx lines 108-119): the value returned to the
caller, `return [...columnOrder]` — a fresh copy of the mutated array. -/
def reorderColumn (draggedColumnId targetColumnId : String)
    (columnOrder : List String) : List String :=
  reorderColumnMutation draggedColumnId targetColumnId columnOrder

/-- Whether `d` occurs somewhere in the list with `t` as the very next
element ("`d` sits immediately before `t`"). -/
def immediatelyBefore (d t : String) : List String → Bool
  | a :: b :: rest => (a == d && b == t) || immediatelyBefore d t (b :: rest)
  | _ => false

/-! ### Basic facts about the JS array model -/

theorem jsIndexOf_of_mem {l : List String} {a : String} (h : a ∈ l) :
    jsIndexOf l a = (l.indexOf a : Int) := if_pos h

theorem take_indexOf_append_drop {l : List String} {d : String} (h : d ∈ l) :
    l.take (l.indexOf d) ++ l.drop (l.indexOf d + 1) = l.erase d := by
  induction l with
  | nil => cases h
  | cons a as ih =>
    by_cases hda : a = d
    · subst hda
      simp [List.indexOf_cons_self]
    · have hmem : d ∈ as := (List.mem_cons.mp h).resolve_left (Ne.symm hda)
      rw [List.indexOf_cons_ne _ hda]
      simpa [List.erase_cons_tail, hda, Nat.succ_eq_add_one] using ih hmem

theorem drop_indexOf_take_one {l : List String} {d : String} (h : d ∈ l) :
    (l.drop (l.indexOf d)).take 1 = [d] := by
  induction l with
  | nil => cases h
  | cons a as ih =>
    by_cases hda : a = d
    · subst hda
      simp [List.indexOf_cons_self]
    · have hmem : d ∈ as := (List.mem_cons.mp h).resolve_left (Ne.symm hda)
      rw [List.indexOf_cons_ne _ hda]
      simpa using ih hmem

theorem spliceRemove1_of_mem {l : List String} {d : String} (h : d ∈ l) :
    spliceRemove1 l (jsIndexOf l d) = (l.erase d, [d]) := by
  have hlt : l.indexOf d < l.length := List.indexOf_lt_length.mpr h
  unfold spliceRemove1 jsNormIdx
  rw [jsIndexOf_of_mem h]
  have h0 : ¬ ((l.indexOf d : Int) < 0) := by omega
  rw [if_neg h0]
  have htn : ((l.indexOf d : Int)).toNat = l.indexOf d := Int.toNat_natCast _
  rw [htn, min_eq_left hlt.le]
  exact Prod.ext (take_indexOf_append_drop h) (drop_indexOf_take_one h)

theorem reorderColumn_eq {l : List String} {d t : String} (hd : d ∈ l) (ht : t ∈ l) :
    reorderColumn d t l =
      (l.erase d).take (l.indexOf t) ++ d :: (l.erase d).drop (l.indexOf t) := by
  have htl : l.indexOf t < l.length := List.indexOf_lt_length.mpr ht
  have hel : (l.erase d).length + 1 = l.length := List.length_erase_add_one hd
  unfold reorderColumn reorderColumnMutation
  rw [spliceRemove1_of_mem hd, jsIndexOf_of_mem ht]
  simp only [spliceInsert, jsNormIdx]
  have h0 : ¬ ((l.indexOf t : Int) < 0) := by omega
  rw [if_neg h0, Int.toNat_natCast, min_eq_left (by omega)]

/-! ### Claim theorems for column reordering -/

/-- C1 (counterexample): the claim as stated — that `reorderColumn`
reinserts the dragged id *immediately before* the target id — is false.
Dragging `"a"` onto `"c"` in `["a", "b", "c"]` yields `["b", "c", "a"]`:
the dragged id ends up immediately *after* the target, because the
insertion index is the target's index in the original array, computed
before the dragged element is removed. -/
theorem reorderColumn_before_target_cex :
    reorderColumn "a" "c" ["a", "b", "c"] = ["b", "c", "a"] ∧
    immediatelyBefore "a" "c" (reorderColumn "a" "c" ["a", "b", "c"]) = false := by
  decide

/-- C1 (amended): for every column order containing both ids,
`reorderColumn` removes the dragged id and reinserts it at the index the
target id occupied in the *original* sequence (so it lands immediately
before the target when it was dragged towards the front, and immediately
after the target when dragged towards the back), returning the full
resulting sequence. -/
theorem reorderColumn_insert_at_original_target_index
    (d t : String) (l : List String) (hd : d ∈ l) (ht : t ∈ l) :
    reorderColumn d t l =
      (l.erase d).take (l.indexOf t) ++ d :: (l.erase d).drop (l.indexOf t) :=
  reorderColumn_eq hd ht

theorem reorderColumn_insert_at_original_target_index_witness :
    reorderColumn "c" "a" ["a", "b", "c"] =
      ((["a", "b", "c"].erase "c").take (["a", "b", "c"].indexOf "a") ++
        "c" :: (["a", "b", "c"].erase "c").drop (["a", "b", "c"].indexOf "a")) ∧
    reorderColumn "c" "a" ["a", "b", "c"] = ["c", "a", "b"] :=
  ⟨reorderColumn_insert_at_original_target_index "c" "a" ["a", "b", "c"]
    (by decide) (by decide), by decide⟩

/-- C6: for every column order containing both the dragged and the target
id, the sequence returned by `reorderColumn` is a permutation of the
input: the multiset of column ids is unchanged. -/
theorem reorderColumn_perm (d t : String) (l : List String)
    (hd : d ∈ l) (ht : t ∈ l) : (reorderColumn d t l).Perm l := by
  rw [reorderColumn_eq hd ht]
  refine List.Perm.trans List.perm_middle ?_
  rw [List.take_append_drop]
  exact (List.perm_cons_erase hd).symm

theorem reorderColumn_perm_witness :
    (reorderColumn "b" "d" ["a", "b", "c", "d", "e"]).Perm ["a", "b", "c", "d", "e"] :=
  reorderColumn_perm "b" "d" ["a", "b", "c", "d", "e"] (by decide) (by decide)

/-- C10: `reorderColumn` performs its reordering by mutating the argument
array in place with `splice`, then returns a fresh spread copy of it; so
after the call the caller's array holds exactly the sequence that is
returned, element for element. -/
theorem reorderColumn_mutation_eq_result (d t : String) (l : List String) :
    reorderColumnMutation d t l = reorderColumn d t l := rfl

/-! ### Column-order reconciliation on render (Table.tsx lines 120-123) -/

/-- The "Niveling number of columns" step executed in the component body on
every render pass:

```
if (columnOrder.length !== columns.length) {
  setColumnOrder(columnsInfo.getValueOfAllColumnsAsociatedWith("id"));
}
```

Given the cached order and the registry's current column-id sequence, it
yields the column order used from this render on. -/
def nivelColumnOrder (cachedOrder registryIds : List String) : List String :=
  if cachedOrder.length ≠ registryIds.length then registryIds else cachedOrder

/-- C7: on a render pass, a cached column order whose length differs from
the registry's column count is replaced by the registry's id sequence;
an equal-length cached order is kept verbatim — even when its ids differ
from the registry's, since only lengths are compared. -/
theorem nivelColumnOrder_length_only (cachedOrder registryIds : List String) :
    (cachedOrder.length ≠ registryIds.length →
      nivelColumnOrder cachedOrder registryIds = registryIds) ∧
    (cachedOrder.length = registryIds.length →
      nivelColumnOrder cachedOrder registryIds = cachedOrder) := by
  unfold nivelColumnOrder
  constructor
  · intro h
    rw [if_pos h]
  · intro h
    rw [if_neg (by omega)]

theorem nivelColumnOrder_length_only_witness :
    nivelColumnOrder ["a"] ["x", "y"] = ["x", "y"] ∧
    nivelColumnOrder ["a", "b"] ["x", "y"] = ["a", "b"] :=
  ⟨(nivelColumnOrder_length_only ["a"] ["x", "y"]).1 (by decide),
   (nivelColumnOrder_length_only ["a", "b"] ["x", "y"]).2 (by decide)⟩

/-! ### Width commit and clamping -/

/-- A persisted column, as far as widths are concerned.  `minWidth` and
`maxWidth` come from the `defaultColumn` record (Table.tsx lines 45-52),
whose concrete values are the `DatabaseLimits` constants. -/
structure PColumn where
  id : String
  minWidth : Int
  maxWidth : Int
  width : Int
  deriving DecidableEq

/-- The proposed width carried by the debounced commit: the column's width
at drag start plus the cumulative drag delta
(`columnToUpdate[1] + deltaOffset`, Table.tsx lines 228-229). -/
def proposedWidth (startWidth deltaOffset : Int) : Int :=
  startWidth + deltaOffset

/-- Modelled from the spec: the Column Registry action `alterColumnSize`
(`commitWidth` in the spec) is not part of the provided sources; per the
spec it "clamps `width` to `[minWidth, maxWidth]`" and "writes back into
the persisted Column.width". -/
def commitWidth (col : PColumn) (width : Int) : PColumn :=
  { col with width := max col.minWidth (min col.maxWidth width) }

/-- C2: for every column whose width bounds are consistent and every
proposed width (start width plus cumulative drag delta), the width stored
by the commit lies within `[minWidth, maxWidth]`, even when the proposed
width lies outside that range. -/
theorem commitWidth_clamped (col : PColumn) (startWidth deltaOffset : Int)
    (h : col.minWidth ≤ col.maxWidth) :
    col.minWidth ≤ (commitWidth col (proposedWidth startWidth deltaOffset)).width ∧
    (commitWidth col (proposedWidth startWidth deltaOffset)).width ≤ col.maxWidth := by
  unfold commitWidth proposedWidth
  constructor
  · exact le_max_left _ _
  · exact max_le h (min_le_left _ _)

theorem commitWidth_clamped_witness :
    (50 : Int) ≤ 300 ∧
    (50 : Int) ≤ (commitWidth ⟨"col", 50, 300, 100⟩ (proposedWidth 100 9999)).width ∧
    (commitWidth ⟨"col", 50, 300, 100⟩ (proposedWidth 100 9999)).width ≤ 300 :=
  ⟨by decide, commitWidth_clamped ⟨"col", 50, 300, 100⟩ 100 9999 (by decide)⟩

/-! ### Add-new-row controller (Table.tsx lines 258-270) -/

/-- The controller-relevant state: the controlled `inputNewRow` string and
the rows held by the Row Store (represented by their seed names). -/
structure NewRowState where
  input : String
  rows : List String
  deriving DecidableEq

/-- Modelled from the spec: the Row Store action `addRow` is not part of
the provided sources; per the spec it "creates a new row" seeded by
`nameOrKey` and "fails silently (no row created) if `nameOrKey` is
empty/blank". -/
def addRow (nameOrKey : String) (rows : List String) : List String :=
  if nameOrKey.trim = "" then rows else rows ++ [nameOrKey]

/-- `handleAddNewRow` (Table.tsx lines 266-270): calls
`dataActions.addRow(inputNewRow, ...)`, then resets the input state with
`setInputNewRow("")` (and blanks the input element) unconditionally. -/
def handleAddNewRow (s : NewRowState) : NewRowState :=
  { input := "", rows := addRow s.input s.rows }

/-- `handleKeyDown` (Table.tsx lines 260-264): on the `"Enter"` key,
delegates to `handleAddNewRow`; otherwise leaves the state alone. -/
def handleKeyDown (key : String) (s : NewRowState) : NewRowState :=
  if key = "Enter" then handleAddNewRow s else s

/-- C8: whichever way add-row is triggered — the explicit submit action or
an `"Enter"` keypress — the controller delegates the current input to the
Row Store's `addRow` and then resets the input state to the empty string
unconditionally; in particular with a blank name the row set is unchanged
and the input is still cleared. -/
theorem handleAddNewRow_clears_input (s : NewRowState) :
    (handleAddNewRow s).input = "" ∧
    (handleKeyDown "Enter" s).input = "" ∧
    (handleAddNewRow s).rows = addRow s.input s.rows ∧
    (s.input.trim = "" → (handleAddNewRow s).rows = s.rows ∧
      (handleAddNewRow s).input = "") := by
  refine ⟨rfl, rfl, rfl, fun h => ⟨?_, rfl⟩⟩
  simp [handleAddNewRow, addRow, h]

theorem handleAddNewRow_clears_input_witness :
    (handleAddNewRow ⟨"  ", ["r1"]⟩).input = "" ∧
    (handleKeyDown "Enter" ⟨"  ", ["r1"]⟩).input = "" ∧
    (handleAddNewRow ⟨"  ", ["r1"]⟩).rows = addRow "  " ["r1"] ∧
    ("  ".trim = "" → (handleAddNewRow ⟨"  ", ["r1"]⟩).rows = ["r1"] ∧
      (handleAddNewRow ⟨"  ", ["r1"]⟩).input = "") :=
  handleAddNewRow_clears_input ⟨"  ", ["r1"]⟩

/-! ### Pagination (Table.tsx lines 250 and 254) -/

/-- The `autoResetPageIndex` option the table is created with
(Table.tsx line 254): automatic resetting of the page index when the
data changes is explicitly disabled. -/
def autoResetPageIndex : Bool := false

/-- The page index used by the next derivation after the row set changes:
with `autoResetPageIndex` enabled the table would reset it to 0; as
configured (disabled) the current page index is kept unchanged. -/
def pageIndexAfterDataChange (current : Nat) : Nat :=
  if autoResetPageIndex then 0 else current

/-- The pagination slice of the derived row model
(`getPaginationRowModel`, Table.tsx line 250): page `pageIndex` of size
`pageSize`, i.e. `rows.slice(pageSize * pageIndex, pageSize * (pageIndex + 1))`.
An out-of-range start index simply yields an empty slice. -/
def paginateRows (rows : List String) (pageSize pageIndex : Nat) : List String :=
  (rows.drop (pageSize * pageIndex)).take pageSize

/-- C5 (counterexample): the spec's scenario — 25 rows, page size 10, page
index 2, then the data shrinks to 5 rows.  Because `autoResetPageIndex`
is `false`, the next derivation keeps page index 2 (it is not clamped to
the last valid page, 0) and the derived page is empty, not a non-empty
valid page. -/
theorem pagination_no_clamp_cex :
    pageIndexAfterDataChange 2 = 2 ∧
    paginateRows ["r1", "r2", "r3", "r4", "r5"] 10 2 = [] ∧
    paginateRows ["r1", "r2", "r3", "r4", "r5"] 10 0 ≠ [] := by
  decide

/-- C5 (amended): when the row set shrinks so that the current page index
lies past the last valid page, the next derivation keeps the stale page
index unchanged (`autoResetPageIndex` is disabled) and yields an empty
page; nothing is thrown — the slice is total and merely empty. -/
theorem pagination_stale_index_empty_page (rows : List String)
    (pageSize pageIndex : Nat) (h : rows.length ≤ pageSize * pageIndex) :
    pageIndexAfterDataChange pageIndex = pageIndex ∧
    paginateRows rows pageSize pageIndex = [] := by
  constructor
  · rfl
  · unfold paginateRows
    rw [List.drop_eq_nil_of_le h]
    exact List.take_nil

theorem pagination_stale_index_empty_page_witness :
    ((["r1", "r2", "r3", "r4", "r5"] : List String).length ≤ 10 * 2) ∧
    pageIndexAfterDataChange 2 = 2 ∧
    paginateRows ["r1", "r2", "r3", "r4", "r5"] 10 2 = [] :=
  ⟨by decide, pagination_stale_index_empty_page ["r1", "r2", "r3", "r4", "r5"] 10 2 (by decide)⟩

/-! ### Debounced column-sizing commit (Table.tsx lines 102, 204-236) -/

/-- One `onColumnSizingChange` invocation (a pointer-move during a resize
drag), at event-loop time `t` milliseconds: `col` is `isResizingColumn`,
`startWidth` the entry of `columnSizingStart` for it, and `deltaOffset`
the cumulative drag delta at this event. -/
structure SizingEvent where
  t : Nat
  col : String
  startWidth : Int
  deltaOffset : Int
  deriving DecidableEq

/-- The commit the handler schedules with `setTimeout(..., 1500)`: at time
`t + 1500` call `columnActions.alterColumnSize(columnToUpdate[0],
columnToUpdate[1] + deltaOffset)` (Table.tsx lines 225-233). -/
def scheduledCommit (e : SizingEvent) : Nat × String × Int :=
  (e.t + 1500, e.col, e.startWidth + e.deltaOffset)

/-- The debounce state: the `alterColumnSize` calls issued so far (fire
time, column id, width), and the single pending `persistSizingTimeout`
(Table.tsx line 102) — one cell for the whole table, not one per column. -/
structure DebounceState where
  commits : List (Nat × String × Int)
  pending : Option (Nat × String × Int)
  deriving DecidableEq

/-- Event-loop timer semantics: before an event at time `now` is handled,
a pending timeout whose deadline has passed fires, issuing its commit. -/
def fireDue (s : DebounceState) (now : Nat) : DebounceState :=
  match s.pending with
  | none => s
  | some p => if p.1 ≤ now then ⟨s.commits ++ [p], none⟩ else s

/-- `onColumnSizingChange` (Table.tsx lines 204-236), restricted to its
temporal effect: any still-pending timeout is cancelled
(`clearTimeout(persistSizingTimeout)`) and a fresh 1500 ms timeout is
armed that will commit this event's cumulative width. -/
def onColumnSizingChange (s : DebounceState) (e : SizingEvent) : DebounceState :=
  let s' := fireDue s e.t
  ⟨s'.commits, some (scheduledCommit e)⟩

/-- Runs a whole resize gesture: the events are handled in order, and the
trailing silence lets any remaining pending timeout fire.  Returns every
`alterColumnSize` call issued. -/
def runSizing (events : List SizingEvent) : List (Nat × String × Int) :=
  let fin := events.foldl onColumnSizingChange ⟨[], none⟩
  fin.commits ++ fin.pending.toList

/-- Two consecutive sizing events are within the debounce window when the
second arrives strictly before the pending 1500 ms timeout expires. -/
def withinDebounce (a b : SizingEvent) : Prop :=
  b.t < a.t + 1500

instance : DecidableRel withinDebounce :=
  fun a b => inferInstanceAs (Decidable (b.t < a.t + 1500))

theorem onColumnSizingChange_no_fire {cs : List (Nat × String × Int)}
    {prev e : SizingEvent} (h : withinDebounce prev e) :
    onColumnSizingChange ⟨cs, some (scheduledCommit prev)⟩ e =
      ⟨cs, some (scheduledCommit e)⟩ := by
  have hnot : ¬ ((scheduledCommit prev).1 ≤ e.t) := by
    simpa [scheduledCommit] using Nat.not_le.mpr h
  simp [onColumnSizingChange, fireDue, hnot]

theorem foldl_sizing_pending (rest : List SizingEvent) :
    ∀ (prev : SizingEvent) (cs : List (Nat × String × Int)),
      List.Chain' withinDebounce (prev :: rest) →
      rest.foldl onColumnSizingChange ⟨cs, some (scheduledCommit prev)⟩ =
        ⟨cs, some (scheduledCommit ((prev :: rest).getLast (List.cons_ne_nil _ _)))⟩ := by
  induction rest with
  | nil =>
    intro prev cs _
    simp [List.getLast]
  | cons e rest' ih =>
    intro prev cs hchain
    rw [List.chain'_cons] at hchain
    rw [List.foldl_cons, onColumnSizingChange_no_fire hchain.1, ih e cs hchain.2]
    rfl

/-- C3: for every non-empty sequence of column-sizing events, each
arriving within 1500 ms of the previous one, followed by silence: every
new event cancels the pending commit timeout and arms a fresh one 1500 ms
later, so exactly one `alterColumnSize` call is issued — after the last
event's 1500 ms window elapses, carrying the final cumulative width
(start width plus last delta) — not one call per event. -/
theorem debounce_single_commit (events : List SizingEvent)
    (hne : events ≠ []) (hchain : List.Chain' withinDebounce events) :
    runSizing events = [scheduledCommit (events.getLast hne)] := by
  match events with
  | e :: rest =>
    unfold runSizing
    have hfirst : onColumnSizingChange ⟨[], none⟩ e = ⟨[], some (scheduledCommit e)⟩ := by
      simp [onColumnSizingChange, fireDue]
    rw [List.foldl_cons, hfirst, foldl_sizing_pending rest e [] hchain]
    simp

theorem debounce_single_commit_witness :
    runSizing [⟨0, "name", 100, 5⟩, ⟨700, "name", 100, 9⟩, ⟨1400, "name", 100, 12⟩] =
      [(2900, "name", 112)] := by
  have h := debounce_single_commit
    [⟨0, "name", 100, 5⟩, ⟨700, "name", 100, 9⟩, ⟨1400, "name", 100, 12⟩]
    (by decide)
    (List.chain'_cons.mpr ⟨by decide,
      List.chain'_cons.mpr ⟨by decide, List.chain'_singleton _⟩⟩)
  simpa [scheduledCommit, List.getLast] using h

/-- C9: a single pending commit timeout exists for the whole table, not
one per column: a sizing event for one column arriving while a commit for
a *different* column is still pending cancels that pending commit, so the
earlier column's commit is never issued — only the later event's commit
fires. -/
theorem debounce_cancels_across_columns (e1 e2 : SizingEvent)
    (hcol : e1.col ≠ e2.col) (hwin : withinDebounce e1 e2) :
    runSizing [e1, e2] = [scheduledCommit e2] ∧
    ∀ c ∈ runSizing [e1, e2], c.2.1 ≠ e1.col := by
  have hnot : ¬ ((scheduledCommit e1).1 ≤ e2.t) := by
    simpa [scheduledCommit] using Nat.not_le.mpr hwin
  have hrun : runSizing [e1, e2] = [scheduledCommit e2] := by
    simp [runSizing, onColumnSizingChange, fireDue, hnot]
  refine ⟨hrun, ?_⟩
  intro c hc
  rw [hrun] at hc
  rw [List.mem_singleton] at hc
  subst hc
  simpa [scheduledCommit] using fun h => hcol h.symm

theorem debounce_cancels_across_columns_witness :
    runSizing [⟨0, "colA", 100, 5⟩, ⟨900, "colB", 80, 7⟩] = [(2400, "colB", 87)] ∧
    ∀ c ∈ runSizing [⟨0, "colA", 100, 5⟩, ⟨900, "colB", 80, 7⟩], c.2.1 ≠ "colA" := by
  have h := debounce_cancels_across_columns ⟨0, "colA", 100, 5⟩ ⟨900, "colB", 80, 7⟩
    (by decide) (by decide)
  simpa [scheduledCommit] using h

/-! ### Global filter pass -/

/-- The characters of a string, lower-cased (JS `toLowerCase`, restricted
to the per-character case mapping). -/
def lowerChars (s : String) : List Char :=
  s.data.map Char.toLower

/-- Whether `needle` occurs as a contiguous run inside `hay`
(JS `String.prototype.includes`). -/
def containsSubChars (needle : List Char) : List Char → Bool
  | [] => needle.isEmpty
  | a :: rest => needle.isPrefixOf (a :: rest) || containsSubChars needle rest

/-- Case-insensitive substring test: `hay` contains `needle` after both
are lower-cased. -/
def strContainsCI (hay needle : String) : Bool :=
  containsSubChars (lowerChars needle) (lowerChars hay)

/-- A column as the filter pass sees it: its id and visibility. -/
structure TColumn where
  id : String
  visible : Bool
  deriving DecidableEq

/-- A row as the filter pass sees it: its id and its stringified cell
values, keyed by column id.  A missing field reads as `""`. -/
structure TRow where
  id : String
  fields : List (String × String)
  deriving DecidableEq

/-- The stringified cell value of row `r` in column `colId` (missing
fields render as empty). -/
def cellValueOf (r : TRow) (colId : String) : String :=
  (r.fields.lookup colId).getD ""

/-- Modelled from the spec: the global-filter predicate.  The filter
function itself (`globalDatabaseFilterFn`, wired in at Table.tsx line 240
next to the `getColumnCanGlobalFilter` hack at lines 238-239) is not part
of the provided sources; per the spec "a row survives if any visible
column's cell value, stringified, case-insensitively contains FilterText
(empty FilterText passes all rows)". -/
def rowSurvivesFilter (cols : List TColumn) (filterText : String) (r : TRow) : Bool :=
  filterText == "" ||
    (cols.filter (fun c => c.visible)).any
      (fun c => strContainsCI (cellValueOf r c.id) filterText)

/-- Modelled from the spec: the global-filter pass keeps exactly the
surviving rows, in order. -/
def globalFilterPass (cols : List TColumn) (filterText : String)
    (rows : List TRow) : List TRow :=
  rows.filter (rowSurvivesFilter cols filterText)

/-- C4: a row survives the global-filter pass iff at least one visible
column's stringified cell value case-insensitively contains the filter
text (for a non-empty filter text), and an empty filter text passes every
row: the filtered set equals the full row set. -/
theorem globalFilterPass_spec (cols : List TColumn) (rows : List TRow)
    (filterText : String) :
    (filterText ≠ "" → ∀ r, r ∈ globalFilterPass cols filterText rows ↔
      (r ∈ rows ∧ ∃ c ∈ cols, c.visible = true ∧
        strContainsCI (cellValueOf r c.id) filterText = true)) ∧
    globalFilterPass cols "" rows = rows := by
  constructor
  · intro hne r
    simp [globalFilterPass, List.mem_filter, rowSurvivesFilter, hne,
      List.any_eq_true, and_assoc]
  · refine List.filter_eq_self.mpr fun r _ => ?_
    simp [rowSurvivesFilter]

theorem globalFilterPass_spec_witness :
    ("ab" : String) ≠ "" ∧
    (⟨"r1", [("name", "xABy")]⟩ : TRow) ∈
      globalFilterPass [⟨"name", true⟩] "ab" [⟨"r1", [("name", "xABy")]⟩] ∧
    globalFilterPass [⟨"name", true⟩] "" [⟨"r1", [("name", "xABy")]⟩] =
      [⟨"r1", [("name", "xABy")]⟩] :=
  ⟨by decide,
   ((globalFilterPass_spec [⟨"name", true⟩] [⟨"r1", [("name", "xABy")]⟩] "ab").1
      (by decide) _).mpr (by decide),
   (globalFilterPass_spec [⟨"name", true⟩] [⟨"r1", [("name", "xABy")]⟩] "anything").2⟩
